import Mathlib

/-!
Verification of the resource-synchronization engine of `meme-generator-rs`
(`src/meme_generator/src/resources.rs`): manifest fetching, hash-based
staleness detection, and bounded-concurrency download scheduling.

The Rust code is embedded shallowly:
* pure helpers (`resource_url`, hashing, staleness filtering) become Lean
  functions;
* the effectful functions (`download_file`, `download_resources`,
  `check_resources`) become state-passing functions over an explicit
  filesystem (`FS`) and network (`Net`) model, additionally emitting a
  linearized trace of observable events (checks, GETs, writes, semaphore
  creations, task dispatches);
* the concurrent download phase additionally gets a small-step transition
  system (`PhaseStep` / `SyncStep`) modelling permit acquisition and release,
  over which the concurrency-bound and failure-isolation claims are stated.

SHA-256 is implemented concretely (FIPS 180-4), matching the `sha2` crate the
source uses, so that hash comparisons evaluate on concrete byte lists.
-/

set_option maxRecDepth 10000

namespace MemeResources

/-! ## SHA-256 (the `sha2` crate's `Sha256`, hex-formatted with `{:x}`) -/

/-- Truncate to a 32-bit word. -/
def w32 (n : Nat) : Nat := n % 4294967296

/-- Right-rotate a 32-bit word by `n` bits. -/
def rotr (n x : Nat) : Nat := w32 ((x >>> n) ||| (x <<< (32 - n)))

def ch (x y z : Nat) : Nat := (x &&& y) ^^^ ((x ^^^ 4294967295) &&& z)

def maj (x y z : Nat) : Nat := (x &&& y) ^^^ (x &&& z) ^^^ (y &&& z)

def bsig0 (x : Nat) : Nat := rotr 2 x ^^^ rotr 13 x ^^^ rotr 22 x

def bsig1 (x : Nat) : Nat := rotr 6 x ^^^ rotr 11 x ^^^ rotr 25 x

def ssig0 (x : Nat) : Nat := rotr 7 x ^^^ rotr 18 x ^^^ (x >>> 3)

def ssig1 (x : Nat) : Nat := rotr 17 x ^^^ rotr 19 x ^^^ (x >>> 10)

/-- The 64 SHA-256 round constants (FIPS 180-4, written in decimal). -/
def shaK : List Nat :=
  [1116352408, 1899447441, 3049323471, 3921009573, 961987163,
   1508970993, 2453635748, 2870763221, 3624381080, 310598401,
   607225278, 1426881987, 1925078388, 2162078206, 2614888103,
   3248222580, 3835390401, 4022224774, 264347078, 604807628,
   770255983, 1249150122, 1555081692, 1996064986, 2554220882,
   2821834349, 2952996808, 3210313671, 3336571891, 3584528711,
   113926993, 338241895, 666307205, 773529912, 1294757372,
   1396182291, 1695183700, 1986661051, 2177026350, 2456956037,
   2730485921, 2820302411, 3259730800, 3345764771, 3516065817,
   3600352804, 4094571909, 275423344, 430227734, 506948616,
   659060556, 883997877, 958139571, 1322822218, 1537002063,
   1747873779, 1955562222, 2024104815, 2227730452, 2361852424,
   2428436474, 2756734187, 3204031479, 3329325298]

/-- The eight 32-bit words of SHA-256 internal state. -/
structure H8 where
  a : Nat
  b : Nat
  c : Nat
  d : Nat
  e : Nat
  f : Nat
  g : Nat
  h : Nat
deriving DecidableEq

def initH : H8 :=
  ⟨1779033703, 3144134277, 1013904242, 2773480762,
   1359893119, 2600822924, 528734635, 1541459225⟩

/-- Big-endian bytes (length `k`) of `n`. -/
def toBytesBE (k n : Nat) : List Nat :=
  (List.range k).map (fun i => n / 256 ^ (k - 1 - i) % 256)

/-- Group consecutive 4-byte runs into big-endian 32-bit words. -/
def bytesToWords : List Nat → List Nat
  | a :: b :: c :: d :: rest => (((a * 256 + b) * 256 + c) * 256 + d) :: bytesToWords rest
  | _ => []

/-- Extend the 16 block words to the 64-word message schedule. -/
def schedule (w16 : List Nat) : List Nat :=
  (List.range 48).foldl
    (fun w _ =>
      let n := w.length
      w ++ [w32 (w.getD (n - 16) 0 + ssig0 (w.getD (n - 15) 0) +
                 w.getD (n - 7) 0 + ssig1 (w.getD (n - 2) 0))])
    w16

/-- One compression round. -/
def shaRound (st : H8) (kw : Nat × Nat) : H8 :=
  let t1 := w32 (st.h + bsig1 st.e + ch st.e st.f st.g + kw.1 + kw.2)
  let t2 := w32 (bsig0 st.a + maj st.a st.b st.c)
  ⟨w32 (t1 + t2), st.a, st.b, st.c, w32 (st.d + t1), st.e, st.f, st.g⟩

/-- Compress one 64-byte block into the running state. -/
def processBlock (hs : H8) (block : List Nat) : H8 :=
  let st := (shaK.zip (schedule (bytesToWords block))).foldl shaRound hs
  ⟨w32 (hs.a + st.a), w32 (hs.b + st.b), w32 (hs.c + st.c), w32 (hs.d + st.d),
   w32 (hs.e + st.e), w32 (hs.f + st.f), w32 (hs.g + st.g), w32 (hs.h + st.h)⟩

/-- Split into 64-byte chunks (the last may be shorter), with structural fuel
so the kernel can evaluate it; `fuel = l.length` always suffices because each
step consumes at least one element. -/
def chunks64Go (fuel : Nat) (l : List Nat) : List (List Nat) :=
  match fuel, l with
  | 0, _ => []
  | _, [] => []
  | fuel + 1, x :: xs => (x :: xs).take 64 :: chunks64Go fuel ((x :: xs).drop 64)

/-- Split into 64-byte chunks (the last may be shorter). -/
def chunks64 (l : List Nat) : List (List Nat) := chunks64Go l.length l

/-- SHA-256 padding: `0x80`, zeros, then the 64-bit big-endian bit length. -/
def padMsg (ms : List Nat) : List Nat :=
  let len := ms.length
  ms ++ 128 :: (List.replicate ((64 - (len + 9) % 64) % 64) 0 ++ toBytesBE 8 (8 * len))

/-- The 32-byte SHA-256 digest of a byte list. -/
def sha256bytes (ms : List Nat) : List Nat :=
  let hs := (chunks64 (padMsg ms)).foldl processBlock initH
  toBytesBE 4 hs.a ++ toBytesBE 4 hs.b ++ toBytesBE 4 hs.c ++ toBytesBE 4 hs.d ++
  toBytesBE 4 hs.e ++ toBytesBE 4 hs.f ++ toBytesBE 4 hs.g ++ toBytesBE 4 hs.h

/-- Lowercase hex digit. -/
def hexDigit (n : Nat) : Char := if n < 10 then Char.ofNat (48 + n) else Char.ofNat (87 + n)

/-- The digest as the 64-character lowercase hex string `format!("{:x}", ...)` yields. -/
def sha256hex (ms : List Nat) : String :=
  String.mk ((sha256bytes ms).foldr (fun b acc => hexDigit (b / 16) :: hexDigit (b % 16) :: acc) [])

/-! ## Data model (`resources.rs`) -/

/-- One manifest entry: `struct FileWithHash { file: String, hash: String }`. -/
structure FileWithHash where
  file : String
  hash : String
deriving DecidableEq

/-- `struct Resources { fonts: Vec<FileWithHash>, images: Vec<FileWithHash> }`. -/
structure Resources where
  fonts : List FileWithHash
  images : List FileWithHash
deriving DecidableEq

/-- State of one local path: absent, existing but failing to open, existing but
failing partway through a read, or readable with the given byte content. -/
inductive FileState
  | absent
  | openErr
  | readErr
  | ok (content : List Nat)
deriving DecidableEq

/-- The local filesystem: file state per path (paths as plain strings). -/
def FS := String → FileState

/-- Result of `client.get(url).send()` plus body delivery: either the send
fails, or a response arrives with a status and a sequence of body chunks;
`streamOk = false` means the chunk stream errors after the listed chunks. -/
inductive HttpResult
  | sendErr
  | resp (status : Nat) (chunks : List (List Nat)) (streamOk : Bool)
deriving DecidableEq

/-- The network: response behaviour per URL. -/
def Net := String → HttpResult

/-- Local-disk failure injection for one destination path: whether
`fs::create_dir_all` on its parent succeeds, whether `File::create` succeeds,
and whether writing the i-th body chunk succeeds. -/
structure DiskCond where
  mkdirOk : Bool
  createOk : Bool
  writeOk : Nat → Bool

def DiskMap := String → DiskCond

/-- `reqwest::StatusCode::is_success`: 2xx. -/
def isSuccessStatus (s : Nat) : Bool := decide (200 ≤ s) && decide (s < 300)

/-- Observable events of one sync call, in program order (the concurrent
download phase is recorded in one linearization; tasks touch pairwise distinct
state so any interleaving yields the same final filesystem). The `cat` tag
records which category's pass emitted the event ("manifest" for the manifest
fetch itself). -/
inductive Event
  | netGet (cat url : String)
  | existsCheck (cat path : String)
  | hashCheck (cat path : String)
  | semCreate (cat : String) (capacity : Nat)
  | catStart (cat : String)
  | taskDispatch (cat url path : String)
  | mkdirP (cat path : String)
  | fileWrite (cat path : String)
deriving DecidableEq

/-- The category tag of an event. -/
def Event.cat : Event → String
  | .netGet c _ => c
  | .existsCheck c _ => c
  | .hashCheck c _ => c
  | .semCreate c _ => c
  | .catStart c => c
  | .taskDispatch c _ _ => c
  | .mkdirP c _ => c
  | .fileWrite c _ => c

/-! ## Pure helpers -/

/-- `fn resource_url(base_url, name) = format!("{base_url}v{VERSION}/resources/{name}")`.
The crate version is a parameter here (the `Cargo.toml` defining
`CARGO_PKG_VERSION` is outside the sources); note the source inserts no
separator between `base_url` and `v`. -/
def resource_url (version base_url name : String) : String :=
  base_url ++ "v" ++ version ++ "/resources/" ++ name

/-- `resources_dir.join(&res.file)`. -/
def joinPath (dir file : String) : String := dir ++ "/" ++ file

/-- `file_path.exists()`. -/
def fileExists (fs : FS) (p : String) : Bool :=
  match fs p with
  | .absent => false
  | _ => true

/-- `async fn is_file_hash_equal(file_path, expected_hash)`: false if the path
does not exist, false if `File::open` fails, false if any 4096-byte `read`
fails, otherwise compares the streamed SHA-256 (equal to the digest of the
whole content) formatted as lowercase hex against `expected_hash`. -/
def is_file_hash_equal (fs : FS) (file_path : String) (expected_hash : String) : Bool :=
  match fs file_path with
  | .absent => false
  | .openErr => false
  | .readErr => false
  | .ok content => sha256hex content == expected_hash

/-- The staleness test of `download_resources`:
`!file_path.exists() || !is_file_hash_equal(&file_path, &res.hash)`. -/
def stale (fs : FS) (dir : String) (res : FileWithHash) : Bool :=
  let file_path := joinPath dir res.file
  !fileExists fs file_path || !is_file_hash_equal fs file_path res.hash

/-- The `to_download` list of `download_resources`: entries failing the check. -/
def to_download (fs : FS) (dir : String) (resources : List FileWithHash) : List FileWithHash :=
  resources.filter (stale fs dir)

/-- Concatenate delivered body chunks. -/
def flattenChunks (cs : List (List Nat)) : List Nat := cs.foldr (fun c acc => c ++ acc) []

/-- Outcome of one `download_file` call, in the order the code can produce
them: directory-creation failure, send failure, non-success status, file-create
failure, chunk-write failure, body-stream failure, or success. -/
inductive DlOutcome
  | dirErr
  | sendErr
  | httpErr (status : Nat)
  | createErr
  | writeErr
  | chunkErr
  | success
deriving DecidableEq

/-- Result of writing body chunks one at a time (`file.write_all(&chunk)` per
chunk): the bytes actually persisted (the prefix up to the first failing
write) and whether every write succeeded. -/
def writeChunks (wOk : Nat → Bool) : List (List Nat) → Nat → List Nat × Bool
  | [], _ => ([], true)
  | c :: cs, i =>
    if wOk i then
      let r := writeChunks wOk cs (i + 1)
      (c ++ r.1, r.2)
    else ([], false)

/-- Result of an effectful call: final filesystem, emitted events, outcome. -/
structure DlRes where
  fs : FS
  events : List Event
  outcome : DlOutcome

/-- `async fn download_file(client, url, file_path)`, in source order:
`create_dir_all` on the parent (failure → warn, return); `GET url` (send
failure → warn, return; non-success status → warn, return); `File::create`
(truncates; failure → warn, return); then the chunk loop, writing each chunk
as it arrives (a failed write or a failed chunk read → warn, return, leaving
the bytes already written on disk). `cat` is a ghost tag for the trace. -/
def download_file (net : Net) (disk : DiskMap) (fs : FS) (cat url file_path : String) : DlRes :=
  let d := disk file_path
  if d.mkdirOk = false then ⟨fs, [.mkdirP cat file_path], .dirErr⟩
  else
    match net url with
    | .sendErr => ⟨fs, [.mkdirP cat file_path, .netGet cat url], .sendErr⟩
    | .resp status chunks streamOk =>
      if isSuccessStatus status = false then
        ⟨fs, [.mkdirP cat file_path, .netGet cat url], .httpErr status⟩
      else if d.createOk = false then
        ⟨fs, [.mkdirP cat file_path, .netGet cat url], .createErr⟩
      else
        let r := writeChunks d.writeOk chunks 0
        ⟨fun q => if q = file_path then .ok r.1 else fs q,
         [.mkdirP cat file_path, .netGet cat url, .fileWrite cat file_path],
         if r.2 = false then .writeErr else if streamOk = false then .chunkErr else .success⟩

/-- Result of a sync pass: final filesystem and emitted events. -/
structure RunRes where
  fs : FS
  events : List Event

/-- The staleness-resolution events of `download_resources`: for each entry,
one `exists` check, then (only when the path exists, by `||` short-circuit)
one hash computation inside `is_file_hash_equal`. -/
def checkEvents (fs : FS) (cat dir : String) : List FileWithHash → List Event
  | [] => []
  | res :: rest =>
    let p := joinPath dir res.file
    (Event.existsCheck cat p :: (if fileExists fs p then [Event.hashCheck cat p] else [])) ++
      checkEvents fs cat dir rest

/-- The spawned download tasks of `download_resources`: one task per
`to_download` entry, each building
`resource_url(base_url, format!("{resource_type}/{}", resource.file))` and the
destination `resources_dir.join(&resource.file)`, then running
`download_file`. Tasks own pairwise distinct paths, so this sequential fold
computes the same final filesystem as any concurrent interleaving. -/
def runTasks (net : Net) (disk : DiskMap) (version base_url cat dir : String) :
    List FileWithHash → FS → RunRes
  | [], fs => ⟨fs, []⟩
  | res :: rest, fs =>
    let url := resource_url version base_url (cat ++ "/" ++ res.file)
    let p := joinPath dir res.file
    let r := download_file net disk fs cat url p
    let next := runTasks net disk version base_url cat dir rest r.fs
    ⟨next.fs, (Event.taskDispatch cat url p :: r.events) ++ next.events⟩

/-- `async fn download_resources(client, base_url, resource_type, resources)`:
pick the category root (`FONTS_DIR` / `IMAGES_DIR`, any other type returns);
filter entries through the staleness check; return early if nothing is stale;
otherwise create the progress bar, create a fresh 32-permit `Semaphore`, log
"Downloading {resource_type}", spawn one task per stale entry and await them
all. The two root directories are passed in as parameters (they come from
`meme_generator_utils::config`, outside these sources; the spec states each
category has its own configured root). -/
def download_resources (net : Net) (disk : DiskMap)
    (version base_url fontsDir imagesDir resource_type : String)
    (resources : List FileWithHash) (fs : FS) : RunRes :=
  let dirOpt : Option String :=
    if resource_type = "fonts" then some fontsDir
    else if resource_type = "images" then some imagesDir
    else none
  match dirOpt with
  | none => ⟨fs, []⟩
  | some dir =>
    let ce := checkEvents fs resource_type dir resources
    let td := to_download fs dir resources
    if td.length = 0 then ⟨fs, ce⟩
    else
      let r := runTasks net disk version base_url resource_type dir td fs
      ⟨r.fs, ce ++ Event.semCreate resource_type 32 :: Event.catStart resource_type :: r.events⟩

/-- `async fn fetch_resource_list(client, base_url)`: GET the manifest URL
(send failure → warn, `None`), then `resp.json::<Resources>()` — which reads
the whole body (a stream failure → `None`) and parses it (`None` on parse
failure). The HTTP status is never examined. `parse` stands for
`serde_json`'s deserialization into `Resources`, which is external code. -/
def fetch_resource_list (parse : List Nat → Option Resources) (net : Net)
    (version base_url : String) : Option Resources :=
  match net (resource_url version base_url "resources.json") with
  | .sendErr => none
  | .resp _status chunks streamOk =>
    if streamOk then parse (flattenChunks chunks) else none

/-- Modelled from the spec: the configuration provider supplies the resource
base URL and a flag enabling/disabling font-category sync
(`CONFIG.resource.resource_url`, `CONFIG.resource.download_fonts`; the config
module is outside these sources). -/
structure Config where
  resource_url : String
  download_fonts : Bool

/-- `pub async fn check_resources(base_url)`: resolve the base URL
(`base_url.unwrap_or(CONFIG.resource.resource_url)`), fetch the manifest
(on `None`, return); then, if `CONFIG.resource.download_fonts`, run and await
the fonts pass; then always run and await the images pass. -/
def check_resources (parse : List Nat → Option Resources) (net : Net) (disk : DiskMap)
    (cfg : Config) (fontsDir imagesDir version : String)
    (base_url_arg : Option String) (fs : FS) : RunRes :=
  let base_url := base_url_arg.getD cfg.resource_url
  let mUrl := resource_url version base_url "resources.json"
  match fetch_resource_list parse net version base_url with
  | none => ⟨fs, [.netGet "manifest" mUrl]⟩
  | some resources =>
    let r1 :=
      if cfg.download_fonts then
        download_resources net disk version base_url fontsDir imagesDir "fonts" resources.fonts fs
      else ⟨fs, []⟩
    let r2 :=
      download_resources net disk version base_url fontsDir imagesDir "images" resources.images r1.fs
    ⟨r2.fs, Event.netGet "manifest" mUrl :: (r1.events ++ r2.events)⟩

/-! ## Small-step model of the concurrent download phase

Each spawned task runs `semaphore.acquire()` (blocking while no permit is
free), then `download_file`, then increments the progress bar and drops the
permit — on success and on failure alike, since `download_file` handles every
error by returning. `Semaphore::new(32)` is created inside each
`download_resources` call; the two category passes are `await`ed one after the
other, so a category's phase ends (all its tasks terminal) before the next
begins. -/

/-- Scheduling status of one spawned task. A terminal task records whether its
`download_file` succeeded. -/
inductive TStatus
  | pending
  | inflight
  | done (ok : Bool)
deriving DecidableEq

/-- State of one category's download phase: per-task status and the number of
free permits of that pass's semaphore. -/
structure PhaseState where
  status : List TStatus
  permits : Nat
deriving DecidableEq

/-- Phase start: all tasks pending, a fresh `Semaphore::new(32)`. -/
def initPhase (n : Nat) : PhaseState := ⟨List.replicate n TStatus.pending, 32⟩

/-- Number of tasks currently holding a permit. -/
def countInflight (l : List TStatus) : Nat := l.countP (fun s => decide (s = TStatus.inflight))

/-- One scheduler step by task `i`: acquire a permit (only possible while one
is free), or finish — with either outcome — releasing the permit. -/
inductive PhaseStep : Nat → PhaseState → PhaseState → Prop
  | acquire (i : Nat) (s : PhaseState)
      (hstat : s.status.get? i = some TStatus.pending) (hperm : 0 < s.permits) :
      PhaseStep i s ⟨s.status.set i TStatus.inflight, s.permits - 1⟩
  | finish (i : Nat) (s : PhaseState) (ok : Bool)
      (hstat : s.status.get? i = some TStatus.inflight) :
      PhaseStep i s ⟨s.status.set i (TStatus.done ok), s.permits + 1⟩

/-- Every task of the phase has reached a terminal state. -/
def allDone (ps : PhaseState) : Prop := ∀ st ∈ ps.status, ∃ b, st = TStatus.done b

/-- Whole-sync state: the fonts pass (if enabled) runs first, remembering how
many images tasks will follow; then the images pass; then the call returns. -/
inductive SyncState
  | fontsActive (ps : PhaseState) (nImages : Nat)
  | imagesActive (ps : PhaseState)
  | finished

/-- Whole-sync transitions: steps inside the active phase, and phase
changes — which require every task of the closing phase to be terminal
(`download_resources` awaits every spawned task before returning). -/
inductive SyncStep : SyncState → SyncState → Prop
  | fontsTask {i : Nat} {ps ps' : PhaseState} {n : Nat} :
      PhaseStep i ps ps' → SyncStep (.fontsActive ps n) (.fontsActive ps' n)
  | fontsFinish {ps : PhaseState} {n : Nat} :
      allDone ps → SyncStep (.fontsActive ps n) (.imagesActive (initPhase n))
  | imagesTask {i : Nat} {ps ps' : PhaseState} :
      PhaseStep i ps ps' → SyncStep (.imagesActive ps) (.imagesActive ps')
  | imagesFinish {ps : PhaseState} :
      allDone ps → SyncStep (.imagesActive ps) .finished

/-- Number of downloads holding a permit at this instant. -/
def activeDownloads : SyncState → Nat
  | .fontsActive ps _ => countInflight ps.status
  | .imagesActive ps => countInflight ps.status
  | .finished => 0

/-- Reachability in the whole-sync transition system. -/
def SyncReach : SyncState → SyncState → Prop := Relation.ReflTransGen SyncStep

/-- Initial whole-sync state for `nFonts` stale fonts and `nImages` stale
images, fonts pass present iff the font flag is on. -/
def syncInit (nFonts nImages : Nat) (withFonts : Bool) : SyncState :=
  if withFonts then .fontsActive (initPhase nFonts) nImages
  else .imagesActive (initPhase nImages)

/-- The permit-accounting invariant of one phase. -/
def PhaseInv (ps : PhaseState) : Prop := countInflight ps.status + ps.permits = 32

/-- The permit-accounting invariant of the whole sync. -/
def SyncInv : SyncState → Prop
  | .fontsActive ps _ => PhaseInv ps
  | .imagesActive ps => PhaseInv ps
  | .finished => True

/-! ## Derived functions and helper lemmas -/

/-- The remote URL a task for entry `e` of category `cat` fetches. -/
def taskUrl (version base_url cat : String) (e : FileWithHash) : String :=
  resource_url version base_url (cat ++ "/" ++ e.file)

/-- The local destination path of entry `e` under root `dir`. -/
def taskPath (dir : String) (e : FileWithHash) : String := joinPath dir e.file

/-- The whole body the network serves at `url` (empty if the send fails). -/
def servedBody (net : Net) (url : String) : List Nat :=
  match net url with
  | .sendErr => []
  | .resp _ chunks _ => flattenChunks chunks

/-- The outcome of `download_file` as a function of the network at its URL and
the disk conditions at its path alone (`download_file` never reads the
filesystem contents). -/
def dlOutcome (net : Net) (disk : DiskMap) (url file_path : String) : DlOutcome :=
  let d := disk file_path
  if d.mkdirOk = false then .dirErr
  else
    match net url with
    | .sendErr => .sendErr
    | .resp status chunks streamOk =>
      if isSuccessStatus status = false then .httpErr status
      else if d.createOk = false then .createErr
      else
        let r := writeChunks d.writeOk chunks 0
        if r.2 = false then .writeErr else if streamOk = false then .chunkErr else .success

theorem string_append_cancel_left {s t u : String} (h : s ++ t = s ++ u) : t = u := by
  have hd := congrArg String.data h
  simp only [String.data_append] at hd
  exact String.ext (List.append_cancel_left hd)

theorem joinPath_file_inj {dir f g : String} (h : joinPath dir f = joinPath dir g) : f = g := by
  simp only [joinPath, String.append_assoc] at h
  exact string_append_cancel_left (string_append_cancel_left h)

theorem resource_url_name_inj {version base_url n₁ n₂ : String}
    (h : resource_url version base_url n₁ = resource_url version base_url n₂) : n₁ = n₂ := by
  simp only [resource_url, String.append_assoc] at h
  exact string_append_cancel_left (string_append_cancel_left
    (string_append_cancel_left (string_append_cancel_left h)))

theorem taskUrl_file_inj {version base_url cat : String} {e₁ e₂ : FileWithHash}
    (h : taskUrl version base_url cat e₁ = taskUrl version base_url cat e₂) : e₁.file = e₂.file := by
  have h₂ := resource_url_name_inj h
  simp only [String.append_assoc] at h₂
  exact string_append_cancel_left (string_append_cancel_left h₂)

theorem taskPath_of_taskUrl_eq {version base_url cat dir : String} {e₁ e₂ : FileWithHash}
    (h : taskUrl version base_url cat e₁ = taskUrl version base_url cat e₂) :
    taskPath dir e₁ = taskPath dir e₂ := by
  simp only [taskPath, joinPath, taskUrl_file_inj h]

theorem flattenChunks_cons (c : List Nat) (cs : List (List Nat)) :
    flattenChunks (c :: cs) = c ++ flattenChunks cs := rfl

theorem writeChunks_allOk (w : Nat → Bool) (cs : List (List Nat)) (i : Nat)
    (h : (writeChunks w cs i).2 = true) : (writeChunks w cs i).1 = flattenChunks cs := by
  induction cs generalizing i with
  | nil => rfl
  | cons c cs ih =>
    by_cases hw : w i
    · simp only [writeChunks, hw, if_true, flattenChunks_cons] at h ⊢
      rw [ih (i + 1) h]
    · simp only [writeChunks, hw, if_false] at h
      exact absurd h (by simp)

theorem download_file_outcome (net : Net) (disk : DiskMap) (fs : FS) (cat url p : String) :
    (download_file net disk fs cat url p).outcome = dlOutcome net disk url p := by
  unfold download_file dlOutcome
  cases net url <;> simp only [] <;> (repeat' split) <;> rfl

theorem download_file_fs_other (net : Net) (disk : DiskMap) (fs : FS) (cat url p q : String)
    (hq : q ≠ p) : (download_file net disk fs cat url p).fs q = fs q := by
  unfold download_file
  cases net url <;> simp only [] <;> (repeat' split) <;> simp [hq]

theorem download_file_success (net : Net) (disk : DiskMap) (fs : FS) (cat url p : String)
    (h : dlOutcome net disk url p = .success) :
    (download_file net disk fs cat url p).fs p = .ok (servedBody net url) := by
  unfold dlOutcome at h
  unfold download_file servedBody
  cases hn : net url with
  | sendErr =>
    rw [hn] at h
    by_cases h1 : (disk p).mkdirOk = false <;> simp [h1] at h
  | resp status chunks streamOk =>
    rw [hn] at h
    simp only [] at h ⊢
    by_cases h1 : (disk p).mkdirOk = false
    · simp [h1] at h
    · simp only [h1, if_false] at h ⊢
      by_cases h2 : isSuccessStatus status = false
      · simp [h2] at h
      · simp only [h2, if_false] at h ⊢
        by_cases h3 : (disk p).createOk = false
        · simp [h3] at h
        · simp only [h3, if_false] at h ⊢
          by_cases h4 : (writeChunks (disk p).writeOk chunks 0).2 = false
          · simp [h4] at h
          · simp only [h4, if_false] at h
            have h5 : (writeChunks (disk p).writeOk chunks 0).2 = true := by
              revert h4; cases (writeChunks (disk p).writeOk chunks 0).2 <;> simp
            simp [writeChunks_allOk _ _ _ h5]

theorem download_file_events_mem (net : Net) (disk : DiskMap) (fs : FS) (cat url p : String) :
    ∀ ev ∈ (download_file net disk fs cat url p).events,
      ev = .mkdirP cat p ∨ ev = .netGet cat url ∨ ev = .fileWrite cat p := by
  unfold download_file
  cases net url <;> simp only [] <;> (repeat' split) <;> intro ev hev <;> simp at hev <;> tauto

/-! ## Event predicates -/

def isTaskDispatch : Event → Bool
  | .taskDispatch _ _ _ => true
  | _ => false

def isSemCreate : Event → Bool
  | .semCreate _ _ => true
  | _ => false

def isHashCheckAt (p : String) : Event → Bool
  | .hashCheck _ q => q == p
  | _ => false

def isFileWriteAt (p : String) : Event → Bool
  | .fileWrite _ q => q == p
  | _ => false

def isMkdirAt (p : String) : Event → Bool
  | .mkdirP _ q => q == p
  | _ => false

def isGetAt (u : String) : Event → Bool
  | .netGet _ v => v == u
  | _ => false

/-! ## Lemmas about the task runner and the staleness resolver -/

theorem runTasks_fs_not_mem (net : Net) (disk : DiskMap) (version base_url cat dir : String)
    (tasks : List FileWithHash) (fs : FS) (q : String)
    (hq : ∀ e ∈ tasks, q ≠ taskPath dir e) :
    (runTasks net disk version base_url cat dir tasks fs).fs q = fs q := by
  induction tasks generalizing fs with
  | nil => rfl
  | cons e rest ih =>
    simp only [runTasks]
    rw [ih _ (fun e' he' => hq e' (List.mem_cons_of_mem _ he'))]
    exact download_file_fs_other _ _ _ _ _ _ _ (hq e (List.mem_cons_self e rest))

theorem runTasks_events_mem (net : Net) (disk : DiskMap) (version base_url cat dir : String)
    (tasks : List FileWithHash) (fs : FS) :
    ∀ ev ∈ (runTasks net disk version base_url cat dir tasks fs).events, ∃ e, e ∈ tasks ∧
      (ev = .taskDispatch cat (taskUrl version base_url cat e) (taskPath dir e) ∨
       ev = .mkdirP cat (taskPath dir e) ∨
       ev = .netGet cat (taskUrl version base_url cat e) ∨
       ev = .fileWrite cat (taskPath dir e)) := by
  induction tasks generalizing fs with
  | nil => intro ev hev; simp [runTasks] at hev
  | cons e rest ih =>
    intro ev hev
    simp only [runTasks, List.cons_append, List.mem_cons, List.mem_append] at hev
    rcases hev with rfl | hdf | hrest
    · exact ⟨e, List.mem_cons_self e rest, Or.inl rfl⟩
    · rcases download_file_events_mem _ _ _ _ _ _ ev hdf with h | h | h
      · exact ⟨e, List.mem_cons_self e rest, Or.inr (Or.inl h)⟩
      · exact ⟨e, List.mem_cons_self e rest, Or.inr (Or.inr (Or.inl h))⟩
      · exact ⟨e, List.mem_cons_self e rest, Or.inr (Or.inr (Or.inr h))⟩
    · rcases ih _ ev hrest with ⟨e', he', hforms⟩
      exact ⟨e', List.mem_cons_of_mem _ he', hforms⟩

theorem runTasks_dispatch_events (net : Net) (disk : DiskMap)
    (version base_url cat dir : String) (tasks : List FileWithHash) (fs : FS) :
    (runTasks net disk version base_url cat dir tasks fs).events.filter isTaskDispatch =
      tasks.map (fun e =>
        Event.taskDispatch cat (taskUrl version base_url cat e) (taskPath dir e)) := by
  induction tasks generalizing fs with
  | nil => rfl
  | cons e rest ih =>
    simp only [runTasks, List.cons_append, List.filter_cons, List.filter_append, ih]
    have hdf :
        (download_file net disk fs cat (resource_url version base_url (cat ++ "/" ++ e.file))
          (joinPath dir e.file)).events.filter isTaskDispatch = [] := by
      rw [List.filter_eq_nil_iff]
      intro ev hev
      rcases download_file_events_mem _ _ _ _ _ _ ev hev with h | h | h <;>
        simp [h, isTaskDispatch]
    simp [hdf, isTaskDispatch, taskUrl, taskPath]

theorem runTasks_count_zero (net : Net) (disk : DiskMap) (version base_url cat dir : String)
    (tasks : List FileWithHash) (fs : FS) (pred : Event → Bool)
    (hp : ∀ e ∈ tasks,
      pred (.taskDispatch cat (taskUrl version base_url cat e) (taskPath dir e)) = false ∧
      pred (.mkdirP cat (taskPath dir e)) = false ∧
      pred (.netGet cat (taskUrl version base_url cat e)) = false ∧
      pred (.fileWrite cat (taskPath dir e)) = false) :
    (runTasks net disk version base_url cat dir tasks fs).events.countP pred = 0 := by
  rw [List.countP_eq_zero]
  intro ev hev
  rcases runTasks_events_mem _ _ _ _ _ _ _ _ ev hev with ⟨e, he, h | h | h | h⟩ <;>
    simp [h, (hp e he).1, (hp e he).2.1, (hp e he).2.2.1, (hp e he).2.2.2]

theorem checkEvents_mem (fs : FS) (cat dir : String) (entries : List FileWithHash) :
    ∀ ev ∈ checkEvents fs cat dir entries, ∃ e, e ∈ entries ∧
      (ev = .existsCheck cat (taskPath dir e) ∨ ev = .hashCheck cat (taskPath dir e)) := by
  induction entries with
  | nil => intro ev hev; simp [checkEvents] at hev
  | cons e rest ih =>
    intro ev hev
    simp only [checkEvents, List.cons_append, List.mem_cons, List.mem_append] at hev
    rcases hev with rfl | hif | hrest
    · exact ⟨e, List.mem_cons_self e rest, Or.inl rfl⟩
    · by_cases hfe : fileExists fs (joinPath dir e.file) = true
      · rw [if_pos hfe] at hif
        simp only [List.mem_singleton] at hif
        exact ⟨e, List.mem_cons_self e rest, Or.inr hif⟩
      · rw [if_neg hfe] at hif
        cases hif
    · rcases ih ev hrest with ⟨e', he', hforms⟩
      exact ⟨e', List.mem_cons_of_mem _ he', hforms⟩

theorem checkEvents_count_zero (fs : FS) (cat dir : String) (entries : List FileWithHash)
    (pred : Event → Bool)
    (hp : ∀ e ∈ entries, pred (.existsCheck cat (taskPath dir e)) = false ∧
      pred (.hashCheck cat (taskPath dir e)) = false) :
    (checkEvents fs cat dir entries).countP pred = 0 := by
  rw [List.countP_eq_zero]
  intro ev hev
  rcases checkEvents_mem _ _ _ _ ev hev with ⟨e, he, h | h⟩ <;>
    simp [h, (hp e he).1, (hp e he).2]

theorem checkEvents_hashCount_one (fs : FS) (cat dir : String) (entries : List FileWithHash)
    (e : FileWithHash) (he : e ∈ entries) (hn : (entries.map (taskPath dir)).Nodup)
    (hex : fileExists fs (taskPath dir e) = true) :
    (checkEvents fs cat dir entries).countP (isHashCheckAt (taskPath dir e)) = 1 := by
  induction entries with
  | nil => cases he
  | cons a rest ih =>
    simp only [List.map_cons, List.nodup_cons] at hn
    rcases List.mem_cons.mp he with rfl | he'
    · have hz : (checkEvents fs cat dir rest).countP (isHashCheckAt (taskPath dir e)) = 0 := by
        apply checkEvents_count_zero
        intro e' he''
        have hne : taskPath dir e' ≠ taskPath dir e :=
          fun hc => hn.1 (hc ▸ List.mem_map_of_mem _ he'')
        constructor <;> simp [isHashCheckAt, hne]
      simp only [checkEvents, List.countP_append, hz, Nat.add_zero]
      have hex' : fileExists fs (joinPath dir e.file) = true := hex
      rw [if_pos hex']
      simp [List.countP_cons, isHashCheckAt, taskPath]
    · have hne : taskPath dir a ≠ taskPath dir e :=
        fun hc => hn.1 (hc ▸ List.mem_map_of_mem _ he')
      have hr := ih he' hn.2
      simp only [taskPath] at hne
      simp only [checkEvents, List.countP_append, hr]
      by_cases hfe : fileExists fs (joinPath dir a.file) = true
      · rw [if_pos hfe]
        simp [List.countP_cons, isHashCheckAt, taskPath, hne]
      · rw [if_neg hfe]
        simp [List.countP_cons, isHashCheckAt]

/-! ## Lemmas about `download_resources` -/

theorem download_resources_unfold (net : Net) (disk : DiskMap)
    (version base_url fontsDir imagesDir t dir : String) (entries : List FileWithHash) (fs : FS)
    (ht : (t = "fonts" ∧ dir = fontsDir) ∨ (t = "images" ∧ dir = imagesDir)) :
    download_resources net disk version base_url fontsDir imagesDir t entries fs =
      if (to_download fs dir entries).length = 0 then
        (⟨fs, checkEvents fs t dir entries⟩ : RunRes)
      else
        ⟨(runTasks net disk version base_url t dir (to_download fs dir entries) fs).fs,
          checkEvents fs t dir entries ++ Event.semCreate t 32 :: Event.catStart t ::
            (runTasks net disk version base_url t dir (to_download fs dir entries) fs).events⟩ := by
  rcases ht with ⟨rfl, rfl⟩ | ⟨rfl, rfl⟩ <;> simp [download_resources]

theorem is_file_hash_equal_true {fs : FS} {p h' : String}
    (h : is_file_hash_equal fs p h' = true) : ∃ c, fs p = .ok c ∧ sha256hex c = h' := by
  unfold is_file_hash_equal at h
  cases hfs : fs p with
  | ok content =>
    rw [hfs] at h
    simp only [beq_iff_eq] at h
    exact ⟨content, rfl, h⟩
  | absent => rw [hfs] at h; cases h
  | openErr => rw [hfs] at h; cases h
  | readErr => rw [hfs] at h; cases h

theorem stale_false_elim {fs : FS} {dir : String} {e : FileWithHash}
    (h : stale fs dir e = false) :
    fileExists fs (taskPath dir e) = true ∧
      is_file_hash_equal fs (taskPath dir e) e.hash = true := by
  simp only [stale] at h
  refine ⟨?_, ?_⟩
  · cases hE : fileExists fs (joinPath dir e.file)
    · rw [hE] at h
      simp at h
    · exact hE
  · cases hH : is_file_hash_equal fs (joinPath dir e.file) e.hash
    · rw [hH] at h
      simp at h
    · exact hH

theorem stale_congr (fs₁ fs₂ : FS) (dir : String) (e : FileWithHash)
    (h : fs₁ (joinPath dir e.file) = fs₂ (joinPath dir e.file)) :
    stale fs₁ dir e = stale fs₂ dir e := by
  simp only [stale, fileExists, is_file_hash_equal]
  rw [h]

theorem runTasks_fs_at (net : Net) (disk : DiskMap) (version base_url cat dir : String)
    (tasks : List FileWithHash) (fs : FS) (e : FileWithHash)
    (hn : (tasks.map (taskPath dir)).Nodup) (he : e ∈ tasks)
    (hs : dlOutcome net disk (taskUrl version base_url cat e) (taskPath dir e) = .success) :
    (runTasks net disk version base_url cat dir tasks fs).fs (taskPath dir e) =
      .ok (servedBody net (taskUrl version base_url cat e)) := by
  induction tasks generalizing fs with
  | nil => cases he
  | cons a rest ih =>
    simp only [List.map_cons, List.nodup_cons] at hn
    rcases List.mem_cons.mp he with rfl | he'
    · simp only [runTasks]
      have hq : ∀ e' ∈ rest, taskPath dir e ≠ taskPath dir e' :=
        fun e' he'' hc => hn.1 (hc ▸ List.mem_map_of_mem _ he'')
      rw [runTasks_fs_not_mem net disk version base_url cat dir rest _ (taskPath dir e) hq]
      exact download_file_success _ _ _ _ _ _ hs
    · simp only [runTasks]
      exact ih _ hn.2 he'

theorem download_resources_fs_other (net : Net) (disk : DiskMap)
    (version base_url fontsDir imagesDir t dir : String) (entries : List FileWithHash) (fs : FS)
    (ht : (t = "fonts" ∧ dir = fontsDir) ∨ (t = "images" ∧ dir = imagesDir)) (q : String)
    (hq : ∀ e ∈ entries, stale fs dir e = true → q ≠ taskPath dir e) :
    (download_resources net disk version base_url fontsDir imagesDir t entries fs).fs q = fs q := by
  rw [download_resources_unfold _ _ _ _ _ _ _ _ _ _ ht]
  split
  · rfl
  · exact runTasks_fs_not_mem _ _ _ _ _ _ _ _ _
      (fun e' he'' => hq e' (List.mem_of_mem_filter he'') (List.mem_filter.mp he'').2)

theorem download_resources_entry_hash (net : Net) (disk : DiskMap)
    (version base_url fontsDir imagesDir t dir : String) (entries : List FileWithHash) (fs : FS)
    (ht : (t = "fonts" ∧ dir = fontsDir) ∨ (t = "images" ∧ dir = imagesDir))
    (hn : (entries.map (taskPath dir)).Nodup) (e : FileWithHash) (he : e ∈ entries)
    (hok : stale fs dir e = true →
      dlOutcome net disk (taskUrl version base_url t e) (taskPath dir e) = .success ∧
      sha256hex (servedBody net (taskUrl version base_url t e)) = e.hash) :
    ∃ c, (download_resources net disk version base_url fontsDir imagesDir t entries fs).fs
        (taskPath dir e) = .ok c ∧ sha256hex c = e.hash := by
  rw [download_resources_unfold _ _ _ _ _ _ _ _ _ _ ht]
  by_cases hst : stale fs dir e = true
  · have hetd : e ∈ to_download fs dir entries := List.mem_filter.mpr ⟨he, hst⟩
    have htd0 : ¬(to_download fs dir entries).length = 0 := by
      intro h0
      rw [List.length_eq_zero] at h0
      rw [h0] at hetd
      cases hetd
    rw [if_neg htd0]
    obtain ⟨hsucc, hhash⟩ := hok hst
    refine ⟨servedBody net (taskUrl version base_url t e), ?_, hhash⟩
    have hn' : ((to_download fs dir entries).map (taskPath dir)).Nodup :=
      hn.sublist (List.Sublist.map _ (List.filter_sublist entries))
    exact runTasks_fs_at _ _ _ _ _ _ _ _ _ hn' hetd hsucc
  · have hcur : stale fs dir e = false := by
      revert hst; cases stale fs dir e <;> simp
    obtain ⟨hE, hH⟩ := stale_false_elim hcur
    obtain ⟨c, hc, hsha⟩ := is_file_hash_equal_true hH
    have huntouched :
        (runTasks net disk version base_url t dir (to_download fs dir entries) fs).fs
          (taskPath dir e) = fs (taskPath dir e) := by
      apply runTasks_fs_not_mem
      intro e' he'' hc'
      have he2 := List.mem_of_mem_filter he''
      have hst2 := (List.mem_filter.mp he'').2
      have : e' = e := List.inj_on_of_nodup_map hn he2 he hc'.symm
      rw [this, hcur] at hst2
      cases hst2
    split
    · exact ⟨c, hc, hsha⟩
    · exact ⟨c, huntouched.trans hc, hsha⟩

theorem download_resources_events_cat (net : Net) (disk : DiskMap)
    (version base_url fontsDir imagesDir t dir : String) (entries : List FileWithHash) (fs : FS)
    (ht : (t = "fonts" ∧ dir = fontsDir) ∨ (t = "images" ∧ dir = imagesDir)) :
    ∀ ev ∈ (download_resources net disk version base_url fontsDir imagesDir t entries fs).events,
      ev.cat = t := by
  rw [download_resources_unfold _ _ _ _ _ _ _ _ _ _ ht]
  split
  · intro ev hev
    rcases checkEvents_mem _ _ _ _ ev hev with ⟨e, _, h | h⟩ <;> simp [h, Event.cat]
  · intro ev hev
    simp only [List.mem_append, List.mem_cons] at hev
    rcases hev with hce | rfl | rfl | hrt
    · rcases checkEvents_mem _ _ _ _ ev hce with ⟨e, _, h | h⟩ <;> simp [h, Event.cat]
    · rfl
    · rfl
    · rcases runTasks_events_mem _ _ _ _ _ _ _ _ ev hrt with ⟨e, _, h | h | h | h⟩ <;>
        simp [h, Event.cat]

/-! ## Invariant of the concurrency model -/

theorem countP_set_aux (p : TStatus → Bool) (l : List TStatus) (i : Nat) (x y : TStatus)
    (h : l.get? i = some y) :
    (l.set i x).countP p + (if p y then 1 else 0) = l.countP p + (if p x then 1 else 0) := by
  induction l generalizing i with
  | nil => cases h
  | cons a as ih =>
    cases i with
    | zero =>
      simp only [List.get?_cons_zero, Option.some_inj] at h
      subst h
      simp only [List.set_cons_zero, List.countP_cons]
      omega
    | succ n =>
      simp only [List.get?_cons_succ] at h
      simp only [List.set_cons_succ, List.countP_cons]
      have := ih n h
      omega

theorem phaseStep_inv {i : Nat} {ps ps' : PhaseState} (h : PhaseStep i ps ps')
    (hinv : PhaseInv ps) : PhaseInv ps' := by
  cases h with
  | acquire hstat hperm =>
    have hc := countP_set_aux (fun st => decide (st = TStatus.inflight)) ps.status i
      TStatus.inflight TStatus.pending hstat
    simp at hc
    unfold PhaseInv countInflight at hinv
    show (ps.status.set i TStatus.inflight).countP (fun st => decide (st = TStatus.inflight)) +
      (ps.permits - 1) = 32
    omega
  | finish ok hstat =>
    have hc := countP_set_aux (fun st => decide (st = TStatus.inflight)) ps.status i
      (TStatus.done ok) TStatus.inflight hstat
    simp at hc
    unfold PhaseInv countInflight at hinv
    show (ps.status.set i (TStatus.done ok)).countP (fun st => decide (st = TStatus.inflight)) +
      (ps.permits + 1) = 32
    omega

theorem initPhase_inv (n : Nat) : PhaseInv (initPhase n) := by
  have hz : (List.replicate n TStatus.pending).countP
      (fun s => decide (s = TStatus.inflight)) = 0 := by
    rw [List.countP_eq_zero]
    intro a ha
    rw [List.eq_of_mem_replicate ha]
    simp
  show (List.replicate n TStatus.pending).countP (fun s => decide (s = TStatus.inflight)) +
    32 = 32
  omega

theorem syncStep_inv {s s' : SyncState} (h : SyncStep s s') (hinv : SyncInv s) : SyncInv s' := by
  cases h with
  | fontsTask hp => exact phaseStep_inv hp hinv
  | fontsFinish _ => exact initPhase_inv _
  | imagesTask hp => exact phaseStep_inv hp hinv
  | imagesFinish _ => trivial

theorem syncReach_inv {s₀ s : SyncState} (h : SyncReach s₀ s) (hinv : SyncInv s₀) : SyncInv s := by
  induction h with
  | refl => exact hinv
  | tail _ hstep ih => exact syncStep_inv hstep ih

theorem syncInit_inv (nF nI : Nat) (wf : Bool) : SyncInv (syncInit nF nI wf) := by
  unfold syncInit
  cases wf <;> simp <;> exact initPhase_inv _

theorem syncInv_active_le {s : SyncState} (h : SyncInv s) : activeDownloads s ≤ 32 := by
  cases s with
  | fontsActive ps n =>
    have h' : countInflight ps.status + ps.permits = 32 := h
    show countInflight ps.status ≤ 32
    omega
  | imagesActive ps =>
    have h' : countInflight ps.status + ps.permits = 32 := h
    show countInflight ps.status ≤ 32
    omega
  | finished => simp [activeDownloads]

/-! ## Concrete worlds for witnesses and counterexamples -/

/-- A disk with no local failures. -/
def noDisk : DiskMap := fun _ => ⟨true, true, fun _ => true⟩

/-- An empty local filesystem. -/
def emptyFS : FS := fun _ => FileState.absent

/-- A network where every send fails. -/
def errNet : Net := fun _ => HttpResult.sendErr

/-- Configuration used by the concrete scenarios. -/
def c2cfg : Config := ⟨"b/", true⟩

/-- Concrete parser: recognises the byte `[7]` as a manifest with no fonts and
one images entry `a.png`. -/
def c2parse : List Nat → Option Resources := fun b =>
  if b = [7] then some ⟨[], [⟨"a.png", "deadbeef"⟩]⟩ else none

/-- Concrete network: the manifest URL answers HTTP 404 with a body that
parses (under `c2parse`) as a valid manifest; the one asset URL answers
HTTP 200 with body `[5]`. -/
def c2net : Net := fun u =>
  if u = "b/v1/resources/resources.json" then .resp 404 [[7]] true
  else if u = "b/v1/resources/images/a.png" then .resp 200 [[5]] true
  else .sendErr

/-! ## Claims -/

/-- C4: `is_file_hash_equal(path, expected)` returns false when the file is
absent, false when opening it fails, false when reading it fails, false when
its SHA-256 digest differs from `expected`, and returns true exactly when the
file has readable content whose digest equals `expected`. (It is a total
function, hence never panics.) -/
theorem c4_staleness_check (fs : FS) (p hexp : String) :
    (fs p = .absent → is_file_hash_equal fs p hexp = false) ∧
    (fs p = .openErr → is_file_hash_equal fs p hexp = false) ∧
    (fs p = .readErr → is_file_hash_equal fs p hexp = false) ∧
    (∀ c, fs p = .ok c → sha256hex c ≠ hexp → is_file_hash_equal fs p hexp = false) ∧
    (is_file_hash_equal fs p hexp = true ↔ ∃ c, fs p = .ok c ∧ sha256hex c = hexp) := by
  refine ⟨?_, ?_, ?_, ?_, ?_, ?_⟩
  · intro h
    unfold is_file_hash_equal
    rw [h]
  · intro h
    unfold is_file_hash_equal
    rw [h]
  · intro h
    unfold is_file_hash_equal
    rw [h]
  · intro c h hne
    unfold is_file_hash_equal
    rw [h]
    show (sha256hex c == hexp) = false
    cases hb : sha256hex c == hexp
    · rfl
    · exact absurd (by simpa using hb) hne
  · exact is_file_hash_equal_true
  · rintro ⟨c, hc, rfl⟩
    unfold is_file_hash_equal
    rw [hc]
    simp

/-- Witness for C4 at a concrete input: an absent file is reported stale. -/
theorem c4_staleness_check_witness : is_file_hash_equal emptyFS "p" "h" = false :=
  (c4_staleness_check emptyFS "p" "h").1 rfl

/-- C10: if a download task fails before its body stream begins — directory
failure aside, a transport error on send or a non-success HTTP status — the
destination file is neither created nor truncated (the whole filesystem is
unchanged and a pre-existing file at that path stays byte-for-byte intact);
conversely, any change `download_file` makes to the filesystem is at its own
path and happens only after a successful (2xx) response was received and
`File::create` succeeded. -/
theorem c10_no_write_before_success (net : Net) (disk : DiskMap) (fs : FS) (cat url p : String) :
    (∀ q, (download_file net disk fs cat url p).fs q ≠ fs q →
      (disk p).mkdirOk = true ∧ (disk p).createOk = true ∧
      ∃ st ch ok, net url = .resp st ch ok ∧ isSuccessStatus st = true ∧ q = p) ∧
    ((disk p).mkdirOk = true → net url = .sendErr →
      (download_file net disk fs cat url p).outcome = .sendErr ∧
      ∀ q, (download_file net disk fs cat url p).fs q = fs q) ∧
    (∀ st ch ok, (disk p).mkdirOk = true → net url = .resp st ch ok →
      isSuccessStatus st = false →
      (download_file net disk fs cat url p).outcome = .httpErr st ∧
      ∀ q, (download_file net disk fs cat url p).fs q = fs q) := by
  refine ⟨?_, ?_, ?_⟩
  · intro q hq
    by_cases hqp : q = p
    · subst hqp
      unfold download_file at hq
      by_cases h1 : (disk q).mkdirOk = false
      · simp [h1] at hq
      · simp only [h1, if_false] at hq
        cases hn : net url with
        | sendErr => rw [hn] at hq; simp at hq
        | resp st ch ok =>
          rw [hn] at hq
          by_cases h2 : isSuccessStatus st = false
          · simp [h2] at hq
          · by_cases h3 : (disk q).createOk = false
            · simp [h2, h3] at hq
            · have hmk : (disk q).mkdirOk = true := by
                revert h1; cases (disk q).mkdirOk <;> simp
              have hcr : (disk q).createOk = true := by
                revert h3; cases (disk q).createOk <;> simp
              have hst : isSuccessStatus st = true := by
                revert h2; cases isSuccessStatus st <;> simp
              exact ⟨hmk, hcr, st, ch, ok, rfl, hst, rfl⟩
    · rw [download_file_fs_other _ _ _ _ _ _ _ hqp] at hq
      exact absurd rfl hq
  · intro hmk hnet
    unfold download_file
    rw [hnet]
    simp [hmk]
  · intro st ch ok hmk hnet hst
    unfold download_file
    rw [hnet]
    simp [hmk, hst]

/-- Witness for C10 at a concrete input: with a failing send, a pre-existing
file is untouched and the outcome is a send error. -/
theorem c10_no_write_before_success_witness :
    (download_file errNet noDisk (fun _ => FileState.ok [1]) "images" "u" "p").outcome =
      .sendErr ∧
    (download_file errNet noDisk (fun _ => FileState.ok [1]) "images" "u" "p").fs "p" =
      FileState.ok [1] := by
  have h := (c10_no_write_before_success errNet noDisk
    (fun _ => FileState.ok [1]) "images" "u" "p").2.1 rfl rfl
  exact ⟨h.1, h.2 "p"⟩

/-- C8 counterexample: at `base_url = "b"`, `version = "1"`, the code builds
the manifest URL `"bv1/resources/resources.json"` — no `/` is inserted
between the base URL and the version segment — which differs from the layout
`{base_url}/v{version}/resources/resources.json` the claim states. -/
theorem c8_counterexample :
    resource_url "1" "b" "resources.json" = "bv1/resources/resources.json" ∧
    resource_url "1" "b" "resources.json" ≠
      "b" ++ "/v" ++ "1" ++ "/resources/" ++ "resources.json" := by
  constructor <;> decide

/-- C8 amended: URL construction is deterministic with layout
`{base_url}v{version}/resources/resources.json` for the manifest and
`{base_url}v{version}/resources/{fonts|images}/{file}` for each dispatched
asset task — the base URL must carry its own trailing slash, since the code
inserts no separator. -/
theorem c8_url_layout :
    (∀ version base_url name, resource_url version base_url name =
      base_url ++ "v" ++ version ++ "/resources/" ++ name) ∧
    (∀ parse net disk cfg fontsDir imagesDir version burlArg fs, ∃ rest,
      (check_resources parse net disk cfg fontsDir imagesDir version burlArg fs).events =
        Event.netGet "manifest"
          (resource_url version (burlArg.getD cfg.resource_url) "resources.json") :: rest) ∧
    (∀ net disk version base_url fontsDir imagesDir t dir entries fs,
      ((t = "fonts" ∧ dir = fontsDir) ∨ (t = "images" ∧ dir = imagesDir)) →
      ∀ ev ∈ (download_resources net disk version base_url fontsDir imagesDir
        t entries fs).events, isTaskDispatch ev = true →
        ∃ e ∈ entries, ev = Event.taskDispatch t
          (resource_url version base_url (t ++ "/" ++ e.file)) (joinPath dir e.file)) := by
  refine ⟨fun _ _ _ => rfl, ?_, ?_⟩
  · intro parse net disk cfg fontsDir imagesDir version burlArg fs
    unfold check_resources
    cases hf : fetch_resource_list parse net version (burlArg.getD cfg.resource_url) <;>
      simp [hf]
  · intro net disk version base_url fontsDir imagesDir t dir entries fs ht ev hev hdisp
    rw [download_resources_unfold _ _ _ _ _ _ _ _ _ _ ht] at hev
    revert hev
    split
    · intro hev
      rcases checkEvents_mem _ _ _ _ ev hev with ⟨e, _, h | h⟩ <;>
        (rw [h] at hdisp; cases hdisp)
    · intro hev
      simp only [List.mem_append, List.mem_cons] at hev
      rcases hev with hce | rfl | rfl | hrt
      · rcases checkEvents_mem _ _ _ _ ev hce with ⟨e, _, h | h⟩ <;>
          (rw [h] at hdisp; cases hdisp)
      · cases hdisp
      · cases hdisp
      · rcases runTasks_events_mem _ _ _ _ _ _ _ _ ev hrt with ⟨e, he, h | h | h | h⟩
        · exact ⟨e, List.mem_of_mem_filter he, h⟩
        · rw [h] at hdisp; cases hdisp
        · rw [h] at hdisp; cases hdisp
        · rw [h] at hdisp; cases hdisp

/-- Witness for C8 amended at concrete inputs: the manifest GET of a concrete
sync uses the computed manifest URL. -/
theorem c8_url_layout_witness :
    ∃ rest, (check_resources c2parse errNet noDisk c2cfg "F" "I" "1" none emptyFS).events =
      Event.netGet "manifest" (resource_url "1" "b/" "resources.json") :: rest :=
  c8_url_layout.2.1 c2parse errNet noDisk c2cfg "F" "I" "1" none emptyFS

/-- C2 counterexample: the claim includes "a non-success HTTP status" among
the manifest-fetch failures that abort the sync, but `fetch_resource_list`
never examines the status: with the manifest URL answering HTTP 404 whose
body parses as a valid manifest, the sync proceeds — it dispatches one
download task and writes the file — instead of aborting. -/
theorem c2_counterexample :
    c2net (resource_url "1" ((none : Option String).getD c2cfg.resource_url)
      "resources.json") = .resp 404 [[7]] true ∧
    isSuccessStatus 404 = false ∧
    (check_resources c2parse c2net noDisk c2cfg "F" "I" "1" none emptyFS).events.countP
      isTaskDispatch = 1 ∧
    (check_resources c2parse c2net noDisk c2cfg "F" "I" "1" none emptyFS).fs
      (joinPath "I" "a.png") = FileState.ok [5] := by
  refine ⟨by decide, by decide, by decide, by decide⟩

/-- C2 amended: a manifest fetch fails exactly when the send errors, the body
stream errors, or the body does not parse as a manifest — a non-success HTTP
status by itself is not checked and does not abort. When the fetch does fail,
the whole sync aborts cleanly before any download: the only event is the
manifest GET (no task dispatched, no file or directory written) and the
filesystem is unchanged; the call returns normally. -/
theorem c2_manifest_failure_aborts (parse : List Nat → Option Resources) (net : Net)
    (disk : DiskMap) (cfg : Config) (fontsDir imagesDir version : String)
    (burlArg : Option String) (fs : FS) :
    (fetch_resource_list parse net version (burlArg.getD cfg.resource_url) = none ↔
      (net (resource_url version (burlArg.getD cfg.resource_url) "resources.json") =
        .sendErr ∨
       (∃ st ch, net (resource_url version (burlArg.getD cfg.resource_url)
          "resources.json") = .resp st ch false) ∨
       (∃ st ch, net (resource_url version (burlArg.getD cfg.resource_url)
          "resources.json") = .resp st ch true ∧ parse (flattenChunks ch) = none))) ∧
    (fetch_resource_list parse net version (burlArg.getD cfg.resource_url) = none →
      (check_resources parse net disk cfg fontsDir imagesDir version burlArg fs).events =
        [Event.netGet "manifest"
          (resource_url version (burlArg.getD cfg.resource_url) "resources.json")] ∧
      ∀ p, (check_resources parse net disk cfg fontsDir imagesDir version burlArg fs).fs p =
        fs p) := by
  constructor
  · cases hn : net (resource_url version (burlArg.getD cfg.resource_url) "resources.json") with
    | sendErr =>
      constructor
      · intro _; exact Or.inl rfl
      · intro _
        unfold fetch_resource_list
        rw [hn]
    | resp st ch so =>
      cases so
      · constructor
        · intro _
          exact Or.inr (Or.inl ⟨st, ch, rfl⟩)
        · intro _
          unfold fetch_resource_list
          rw [hn]
          rfl
      · constructor
        · intro h
          unfold fetch_resource_list at h
          rw [hn] at h
          refine Or.inr (Or.inr ⟨st, ch, rfl, ?_⟩)
          simpa using h
        · rintro (h | ⟨st', ch', h⟩ | ⟨st', ch', heq, h⟩)
          · exact absurd h (by simp)
          · exact absurd h (by simp)
          · injection heq with h1 h2 h3
            subst h2
            unfold fetch_resource_list
            rw [hn]
            simpa using h
  · intro hf
    simp only [check_resources]
    rw [hf]
    exact ⟨rfl, fun _ => rfl⟩

/-- Witness for C2 amended at a concrete input: with every send failing, the
sync's only event is the manifest GET and the filesystem is unchanged. -/
theorem c2_manifest_failure_aborts_witness :
    (check_resources c2parse errNet noDisk c2cfg "F" "I" "1" none emptyFS).events =
      [Event.netGet "manifest" (resource_url "1" "b/" "resources.json")] ∧
    ∀ p, (check_resources c2parse errNet noDisk c2cfg "F" "I" "1" none emptyFS).fs p =
      emptyFS p :=
  (c2_manifest_failure_aborts c2parse errNet noDisk c2cfg "F" "I" "1" none emptyFS).2 rfl

/-- C5: for a category list of N manifest entries of which exactly M are
stale, exactly M download tasks are dispatched — one per stale entry (the
dispatch events are exactly the stale entries' tasks, in order) — and each
current entry undergoes no further action: its path is hashed exactly once
(the initial staleness check), its file is never written, no directory
creation targets its path, no GET for its URL is issued, and its file state
is unchanged. Stated under the data-model invariant that relative paths are
unique within their category. -/
theorem c5_resolver_dispatch (net : Net) (disk : DiskMap)
    (version base_url fontsDir imagesDir t dir : String) (entries : List FileWithHash)
    (fs : FS) (ht : (t = "fonts" ∧ dir = fontsDir) ∨ (t = "images" ∧ dir = imagesDir))
    (hn : (entries.map (taskPath dir)).Nodup) :
    ((download_resources net disk version base_url fontsDir imagesDir t entries fs).events.filter
        isTaskDispatch =
      (entries.filter (stale fs dir)).map (fun e =>
        Event.taskDispatch t (taskUrl version base_url t e) (taskPath dir e))) ∧
    ((download_resources net disk version base_url fontsDir imagesDir t entries
        fs).events.countP isTaskDispatch = (entries.filter (stale fs dir)).length) ∧
    (∀ e ∈ entries, stale fs dir e = false →
      (download_resources net disk version base_url fontsDir imagesDir t entries fs).fs
          (taskPath dir e) = fs (taskPath dir e) ∧
      (download_resources net disk version base_url fontsDir imagesDir t entries
          fs).events.countP (isHashCheckAt (taskPath dir e)) = 1 ∧
      (download_resources net disk version base_url fontsDir imagesDir t entries
          fs).events.countP (isFileWriteAt (taskPath dir e)) = 0 ∧
      (download_resources net disk version base_url fontsDir imagesDir t entries
          fs).events.countP (isMkdirAt (taskPath dir e)) = 0 ∧
      (download_resources net disk version base_url fontsDir imagesDir t entries
          fs).events.countP (isGetAt (taskUrl version base_url t e)) = 0) := by
  have hcd : ∀ ev ∈ checkEvents fs t dir entries, isTaskDispatch ev = false := by
    intro ev hev
    rcases checkEvents_mem _ _ _ _ ev hev with ⟨e, _, h | h⟩ <;> rw [h] <;> rfl
  have hfil : (checkEvents fs t dir entries).filter isTaskDispatch = [] :=
    List.filter_eq_nil_iff.mpr (by intro ev hev; rw [hcd ev hev]; simp)
  have hone : ∀ (l : List Event) (pred : Event → Bool),
      (∀ ev ∈ l, pred ev = false) → l.countP pred = 0 :=
    fun l pred h => List.countP_eq_zero.mpr (by intro ev hev; rw [h ev hev]; simp)
  rw [download_resources_unfold _ _ _ _ _ _ _ _ _ _ ht]
  by_cases h0 : (to_download fs dir entries).length = 0
  · rw [if_pos h0]
    have hnil : entries.filter (stale fs dir) = [] := List.length_eq_zero.mp h0
    refine ⟨by rw [hfil, hnil]; rfl, ?_, ?_⟩
    · rw [hone _ _ hcd, hnil]
      rfl
    · intro e he hcur
      obtain ⟨hE, _⟩ := stale_false_elim hcur
      refine ⟨rfl, checkEvents_hashCount_one fs t dir entries e he hn hE, ?_, ?_, ?_⟩ <;>
        (apply hone; intro ev hev;
          rcases checkEvents_mem _ _ _ _ ev hev with ⟨e', _, h | h⟩ <;> rw [h] <;> rfl)
  · rw [if_neg h0]
    have hdiffs : ∀ e ∈ entries, stale fs dir e = false →
        ∀ e' ∈ to_download fs dir entries, taskPath dir e' ≠ taskPath dir e := by
      intro e he hcur e' he'' hc
      have he2 := List.mem_of_mem_filter he''
      have hst2 := (List.mem_filter.mp he'').2
      have : e' = e := List.inj_on_of_nodup_map hn he2 he hc
      rw [this, hcur] at hst2
      cases hst2
    refine ⟨?_, ?_, ?_⟩
    · rw [List.filter_append, hfil, List.nil_append, List.filter_cons, List.filter_cons]
      have h1 : isTaskDispatch (Event.semCreate t 32) = false := rfl
      have h2 : isTaskDispatch (Event.catStart t) = false := rfl
      rw [h1, h2]
      simp only [if_neg (by simp : ¬(false = true))]
      exact runTasks_dispatch_events _ _ _ _ _ _ _ _
    · rw [List.countP_append, hone _ _ hcd, List.countP_cons, List.countP_cons]
      have hrt : (runTasks net disk version base_url t dir (to_download fs dir entries)
          fs).events.countP isTaskDispatch =
          ((runTasks net disk version base_url t dir (to_download fs dir entries)
            fs).events.filter isTaskDispatch).length := List.countP_eq_length_filter _ _
      rw [hrt, runTasks_dispatch_events, List.length_map]
      have hc1 : isTaskDispatch (Event.catStart t) = false := rfl
      have hc2 : isTaskDispatch (Event.semCreate t 32) = false := rfl
      rw [hc1, hc2]
      simp [to_download]
    · intro e he hcur
      obtain ⟨hE, _⟩ := stale_false_elim hcur
      have hdiff := hdiffs e he hcur
      have hurl : ∀ e' ∈ to_download fs dir entries,
          taskUrl version base_url t e' ≠ taskUrl version base_url t e := by
        intro e' he'' hc
        exact hdiff e' he''
          (by simp only [taskPath, joinPath, taskUrl_file_inj hc])
      have hrt_zero : ∀ (pred : Event → Bool),
          (∀ e' ∈ to_download fs dir entries,
            pred (.taskDispatch t (taskUrl version base_url t e') (taskPath dir e')) = false ∧
            pred (.mkdirP t (taskPath dir e')) = false ∧
            pred (.netGet t (taskUrl version base_url t e')) = false ∧
            pred (.fileWrite t (taskPath dir e')) = false) →
          (runTasks net disk version base_url t dir (to_download fs dir entries)
            fs).events.countP pred = 0 :=
        fun pred hp => runTasks_count_zero _ _ _ _ _ _ _ _ pred hp
      refine ⟨?_, ?_, ?_, ?_, ?_⟩
      · exact runTasks_fs_not_mem _ _ _ _ _ _ _ _ _
          (fun e' he'' hc => hdiff e' he'' hc.symm)
      · rw [List.countP_append, checkEvents_hashCount_one fs t dir entries e he hn hE,
          List.countP_cons, List.countP_cons]
        have hz := hrt_zero (isHashCheckAt (taskPath dir e))
          (by intro e' _; exact ⟨rfl, rfl, rfl, rfl⟩)
        rw [hz]
        rfl
      · rw [List.countP_append, List.countP_cons, List.countP_cons]
        have hce := hone (checkEvents fs t dir entries) (isFileWriteAt (taskPath dir e))
          (by intro ev hev
              rcases checkEvents_mem _ _ _ _ ev hev with ⟨e', _, h | h⟩ <;> rw [h] <;> rfl)
        have hz := hrt_zero (isFileWriteAt (taskPath dir e))
          (by intro e' he''
              refine ⟨rfl, rfl, rfl, ?_⟩
              show (taskPath dir e' == taskPath dir e) = false
              exact beq_eq_false_iff_ne.mpr (hdiff e' he''))
        rw [hce, hz]
        rfl
      · rw [List.countP_append, List.countP_cons, List.countP_cons]
        have hce := hone (checkEvents fs t dir entries) (isMkdirAt (taskPath dir e))
          (by intro ev hev
              rcases checkEvents_mem _ _ _ _ ev hev with ⟨e', _, h | h⟩ <;> rw [h] <;> rfl)
        have hz := hrt_zero (isMkdirAt (taskPath dir e))
          (by intro e' he''
              refine ⟨rfl, ?_, rfl, rfl⟩
              show (taskPath dir e' == taskPath dir e) = false
              exact beq_eq_false_iff_ne.mpr (hdiff e' he''))
        rw [hce, hz]
        rfl
      · rw [List.countP_append, List.countP_cons, List.countP_cons]
        have hce := hone (checkEvents fs t dir entries) (isGetAt (taskUrl version base_url t e))
          (by intro ev hev
              rcases checkEvents_mem _ _ _ _ ev hev with ⟨e', _, h | h⟩ <;> rw [h] <;> rfl)
        have hz := hrt_zero (isGetAt (taskUrl version base_url t e))
          (by intro e' he''
              refine ⟨rfl, rfl, ?_, rfl⟩
              show (taskUrl version base_url t e' == taskUrl version base_url t e) = false
              exact beq_eq_false_iff_ne.mpr (hurl e' he''))
        rw [hce, hz]
        rfl

/-- Witness for C5 at a concrete input: one stale entry out of two dispatches
exactly one task, and the current entry's file is untouched. The current
entry's content is the single byte 1, whose digest the manifest lists. -/
theorem c5_resolver_dispatch_witness :
    ((download_resources c2net noDisk "1" "b/" "F" "I" "images"
      [⟨"ok.png", sha256hex [1]⟩, ⟨"a.png", "deadbeef"⟩]
      (fun p => if p = "I/ok.png" then FileState.ok [1] else FileState.absent)).events.countP
        isTaskDispatch = 1) ∧
    ((download_resources c2net noDisk "1" "b/" "F" "I" "images"
      [⟨"ok.png", sha256hex [1]⟩, ⟨"a.png", "deadbeef"⟩]
      (fun p => if p = "I/ok.png" then FileState.ok [1] else FileState.absent)).fs "I/ok.png" =
      FileState.ok [1]) := by
  have h := c5_resolver_dispatch c2net noDisk "1" "b/" "F" "I" "images" "I"
    [⟨"ok.png", sha256hex [1]⟩, ⟨"a.png", "deadbeef"⟩]
    (fun p => if p = "I/ok.png" then FileState.ok [1] else FileState.absent)
    (Or.inr ⟨rfl, rfl⟩) (by decide)
  have h3 := (h.2.2 ⟨"ok.png", sha256hex [1]⟩ (List.mem_cons_self _ _) (by decide)).1
  refine ⟨?_, ?_⟩
  · rw [h.2.1]
    decide
  · exact h3

/-- C6: a second sync against the same manifest with unchanged local files,
after a first sync in which every (processed) entry became current, schedules
zero download tasks and leaves the filesystem unchanged. -/
theorem c6_idempotence (parse : List Nat → Option Resources) (net : Net) (disk : DiskMap)
    (cfg : Config) (fontsDir imagesDir version : String) (burlArg : Option String) (fs : FS)
    (resources : Resources)
    (hfetch : fetch_resource_list parse net version (burlArg.getD cfg.resource_url) =
      some resources)
    (hfonts : cfg.download_fonts = true → ∀ e ∈ resources.fonts, stale fs fontsDir e = false)
    (himages : ∀ e ∈ resources.images, stale fs imagesDir e = false) :
    (check_resources parse net disk cfg fontsDir imagesDir version burlArg fs).events.countP
      isTaskDispatch = 0 ∧
    ∀ p, (check_resources parse net disk cfg fontsDir imagesDir version burlArg fs).fs p =
      fs p := by
  have hdrf : ∀ (t dir : String) (entries : List FileWithHash),
      ((t = "fonts" ∧ dir = fontsDir) ∨ (t = "images" ∧ dir = imagesDir)) →
      (∀ e ∈ entries, stale fs dir e = false) →
      download_resources net disk version (burlArg.getD cfg.resource_url) fontsDir imagesDir
        t entries fs = ⟨fs, checkEvents fs t dir entries⟩ := by
    intro t dir entries ht hall
    rw [download_resources_unfold _ _ _ _ _ _ _ _ _ _ ht]
    have h0 : to_download fs dir entries = [] :=
      List.filter_eq_nil_iff.mpr (by intro e he; rw [hall e he]; simp)
    rw [if_pos (by rw [h0]; rfl)]
  have hcz : ∀ (t dir : String) (entries : List FileWithHash),
      (checkEvents fs t dir entries).countP isTaskDispatch = 0 := by
    intro t dir entries
    rw [List.countP_eq_zero]
    intro ev hev
    rcases checkEvents_mem _ _ _ _ ev hev with ⟨e, _, h | h⟩ <;> rw [h] <;> simp [isTaskDispatch]
  simp only [check_resources, hfetch]
  by_cases hdf : cfg.download_fonts = true
  · rw [if_pos hdf]
    rw [hdrf "fonts" fontsDir resources.fonts (Or.inl ⟨rfl, rfl⟩) (hfonts hdf)]
    rw [hdrf "images" imagesDir resources.images (Or.inr ⟨rfl, rfl⟩) himages]
    constructor
    · simp only [List.countP_cons, List.countP_append, hcz]
      rfl
    · intro p
      rfl
  · rw [if_neg hdf]
    rw [hdrf "images" imagesDir resources.images (Or.inr ⟨rfl, rfl⟩) himages]
    constructor
    · simp only [List.countP_cons, List.countP_append, hcz]
      rfl
    · intro p
      rfl

/-- Witness for C6 at a concrete input: a manifest whose one images entry is
already current schedules no downloads and changes nothing. -/
theorem c6_idempotence_witness :
    (check_resources (fun b => if b = [7] then some ⟨[], [⟨"a.png", sha256hex [1]⟩]⟩ else none)
      (fun u => if u = "b/v1/resources/resources.json" then .resp 200 [[7]] true else .sendErr)
      noDisk c2cfg "F" "I" "1" none
      (fun p => if p = "I/a.png" then FileState.ok [1] else FileState.absent)).events.countP
        isTaskDispatch = 0 ∧
    ∀ p, (check_resources
        (fun b => if b = [7] then some ⟨[], [⟨"a.png", sha256hex [1]⟩]⟩ else none)
        (fun u => if u = "b/v1/resources/resources.json" then .resp 200 [[7]] true else .sendErr)
        noDisk c2cfg "F" "I" "1" none
        (fun p => if p = "I/a.png" then FileState.ok [1] else FileState.absent)).fs p =
      (fun p => if p = "I/a.png" then FileState.ok [1] else FileState.absent) p :=
  c6_idempotence
    (fun b => if b = [7] then some ⟨[], [⟨"a.png", sha256hex [1]⟩]⟩ else none)
    (fun u => if u = "b/v1/resources/resources.json" then .resp 200 [[7]] true else .sendErr)
    noDisk c2cfg "F" "I" "1" none
    (fun p => if p = "I/a.png" then FileState.ok [1] else FileState.absent)
    ⟨[], [⟨"a.png", sha256hex [1]⟩]⟩ (by decide)
    (by intro _ e he; cases he)
    (by
      intro e he
      rcases List.mem_singleton.mp he with rfl
      decide)

/-- C9: with a successfully fetched manifest, the images category is always
processed, while the fonts category is processed iff the configuration's font
flag is enabled; and the fonts pass runs to completion before the images pass
begins: the sync trace is the manifest GET, then only fonts-tagged events,
then only images-tagged events, with the images pass starting from the
filesystem the fonts pass produced. The config flag is modelled from the
spec's configuration-provider contract. -/
theorem c9_category_order (parse : List Nat → Option Resources) (net : Net) (disk : DiskMap)
    (cfg : Config) (fontsDir imagesDir version : String) (burlArg : Option String) (fs : FS)
    (resources : Resources)
    (hfetch : fetch_resource_list parse net version (burlArg.getD cfg.resource_url) =
      some resources) :
    ∃ tF tI,
      (check_resources parse net disk cfg fontsDir imagesDir version burlArg fs).events =
        Event.netGet "manifest"
          (resource_url version (burlArg.getD cfg.resource_url) "resources.json") ::
          (tF ++ tI) ∧
      (∀ ev ∈ tF, ev.cat = "fonts") ∧
      (∀ ev ∈ tI, ev.cat = "images") ∧
      (cfg.download_fonts = true → tF =
        (download_resources net disk version (burlArg.getD cfg.resource_url) fontsDir
          imagesDir "fonts" resources.fonts fs).events) ∧
      (cfg.download_fonts = false → tF = []) ∧
      tI = (download_resources net disk version (burlArg.getD cfg.resource_url) fontsDir
        imagesDir "images" resources.images
        (if cfg.download_fonts = true then
          (download_resources net disk version (burlArg.getD cfg.resource_url) fontsDir
            imagesDir "fonts" resources.fonts fs).fs
         else fs)).events := by
  simp only [check_resources, hfetch]
  by_cases hdf : cfg.download_fonts = true
  · simp only [if_pos hdf]
    refine ⟨_, _, rfl, ?_, ?_, fun _ => rfl,
      fun hc => by rw [hc] at hdf; exact Bool.noConfusion hdf, rfl⟩
    · exact download_resources_events_cat _ _ _ _ _ _ _ _ _ _ (Or.inl ⟨rfl, rfl⟩)
    · exact download_resources_events_cat _ _ _ _ _ _ _ _ _ _ (Or.inr ⟨rfl, rfl⟩)
  · simp only [if_neg hdf]
    refine ⟨[], _, rfl, ?_, ?_, fun hc => absurd hc hdf, fun _ => rfl, rfl⟩
    · intro ev hev
      cases hev
    · exact download_resources_events_cat _ _ _ _ _ _ _ _ _ _ (Or.inr ⟨rfl, rfl⟩)

/-- Witness for C9 at a concrete input. -/
theorem c9_category_order_witness :
    ∃ tF tI,
      (check_resources c2parse c2net noDisk c2cfg "F" "I" "1" none emptyFS).events =
        Event.netGet "manifest" (resource_url "1" "b/" "resources.json") :: (tF ++ tI) ∧
      (∀ ev ∈ tF, ev.cat = "fonts") ∧
      (∀ ev ∈ tI, ev.cat = "images") ∧
      (c2cfg.download_fonts = true → tF =
        (download_resources c2net noDisk "1" "b/" "F" "I" "fonts"
          (⟨[], [⟨"a.png", "deadbeef"⟩]⟩ : Resources).fonts emptyFS).events) ∧
      (c2cfg.download_fonts = false → tF = []) ∧
      tI = (download_resources c2net noDisk "1" "b/" "F" "I" "images"
        (⟨[], [⟨"a.png", "deadbeef"⟩]⟩ : Resources).images
        (if c2cfg.download_fonts = true then
          (download_resources c2net noDisk "1" "b/" "F" "I" "fonts"
            (⟨[], [⟨"a.png", "deadbeef"⟩]⟩ : Resources).fonts emptyFS).fs
         else emptyFS)).events :=
  c9_category_order c2parse c2net noDisk c2cfg "F" "I" "1" none emptyFS
    ⟨[], [⟨"a.png", "deadbeef"⟩]⟩ (by decide)

/-- Parser of the C1 scenarios: byte `[7]` is a manifest whose one images
entry `a.png` has content hash `sha256hex [1]`. -/
def c1parse : List Nat → Option Resources := fun b =>
  if b = [7] then some ⟨[], [⟨"a.png", sha256hex [1]⟩]⟩ else none

/-- Network of the C1 counterexample: the manifest is served normally, but the
asset URL serves the byte `[2]` — whose digest is not the manifest's
`sha256hex [1]` — with HTTP 200. -/
def c1net : Net := fun u =>
  if u = "b/v1/resources/resources.json" then .resp 200 [[7]] true
  else if u = "b/v1/resources/images/a.png" then .resp 200 [[2]] true
  else .sendErr

/-- Network of the C1 witness: the asset URL serves exactly the byte `[1]`
promised by the manifest. -/
def c1netGood : Net := fun u =>
  if u = "b/v1/resources/resources.json" then .resp 200 [[7]] true
  else if u = "b/v1/resources/images/a.png" then .resp 200 [[1]] true
  else .sendErr

/-- C1 counterexample: `download_file` never verifies the downloaded bytes
against the manifest hash. In a sync whose one entry (`a.png`,
`hash = sha256hex [1]`) downloads with no error of any kind (outcome
`success`), the server served `[2]`, so after the sync the local file's
SHA-256 digest differs from the entry's `content_hash` — refuting the claim
as stated. -/
theorem c1_counterexample :
    c1parse [7] = some ⟨[], [⟨"a.png", sha256hex [1]⟩]⟩ ∧
    dlOutcome c1net noDisk "b/v1/resources/images/a.png" "I/a.png" = .success ∧
    (check_resources c1parse c1net noDisk c2cfg "F" "I" "1" none emptyFS).fs "I/a.png" =
      FileState.ok [2] ∧
    sha256hex [2] ≠ sha256hex [1] := by
  exact ⟨by decide, by decide, by decide, by decide⟩

/-- C1 amended: for every entry of a processed category (images always, fonts
when the flag is on), if the entry's download — when one was needed — reported
no error *and the bytes served at its URL hash to the entry's `content_hash`*
(the code performs no post-download verification, see the counterexample),
then after the sync the local file at `category_root/relative_path` has
content whose SHA-256 digest equals the entry's `content_hash`. Stated under
the data-model invariant that destination paths are pairwise distinct. -/
theorem c1_entry_hash (parse : List Nat → Option Resources) (net : Net) (disk : DiskMap)
    (cfg : Config) (fontsDir imagesDir version : String) (burlArg : Option String) (fs : FS)
    (resources : Resources)
    (hfetch : fetch_resource_list parse net version (burlArg.getD cfg.resource_url) =
      some resources)
    (hn : ((if cfg.download_fonts = true then resources.fonts.map (taskPath fontsDir)
        else []) ++ resources.images.map (taskPath imagesDir)).Nodup)
    (t dir : String) (e : FileWithHash)
    (hcat : (t = "fonts" ∧ dir = fontsDir ∧ cfg.download_fonts = true ∧ e ∈ resources.fonts) ∨
      (t = "images" ∧ dir = imagesDir ∧ e ∈ resources.images))
    (hok : stale fs dir e = true →
      dlOutcome net disk (taskUrl version (burlArg.getD cfg.resource_url) t e)
        (taskPath dir e) = .success ∧
      sha256hex (servedBody net
        (taskUrl version (burlArg.getD cfg.resource_url) t e)) = e.hash) :
    ∃ c, (check_resources parse net disk cfg fontsDir imagesDir version burlArg fs).fs
        (taskPath dir e) = .ok c ∧ sha256hex c = e.hash := by
  simp only [check_resources, hfetch]
  rcases hcat with ⟨rfl, rfl, hdf, he⟩ | ⟨rfl, rfl, he⟩
  · -- fonts entry: fonts pass produces the file, the images pass leaves it alone
    simp only [if_pos hdf]
    rw [if_pos hdf] at hn
    rw [List.nodup_append] at hn
    have hres := download_resources_entry_hash net disk version (burlArg.getD cfg.resource_url)
      dir imagesDir "fonts" dir resources.fonts fs (Or.inl ⟨rfl, rfl⟩) hn.1 e he hok
    obtain ⟨c, hc, hsha⟩ := hres
    refine ⟨c, ?_, hsha⟩
    rw [download_resources_fs_other _ _ _ _ _ _ _ _ _ _ (Or.inr ⟨rfl, rfl⟩) _ ?_]
    · exact hc
    · intro e' he' _ hcontra
      exact hn.2.2 (List.mem_map_of_mem _ he) (hcontra ▸ List.mem_map_of_mem _ he')
  · -- images entry: the fonts pass (if any) leaves its path alone
    by_cases hdf : cfg.download_fonts = true
    · simp only [if_pos hdf]
      rw [if_pos hdf] at hn
      rw [List.nodup_append] at hn
      have huntouched : (download_resources net disk version (burlArg.getD cfg.resource_url)
          fontsDir dir "fonts" resources.fonts fs).fs (taskPath dir e) =
          fs (taskPath dir e) := by
        apply download_resources_fs_other _ _ _ _ _ _ _ _ _ _ (Or.inl ⟨rfl, rfl⟩)
        intro e' he' _ hcontra
        exact hn.2.2 (List.mem_map_of_mem _ he') (hcontra.symm ▸ List.mem_map_of_mem _ he)
      have hok' : stale (download_resources net disk version (burlArg.getD cfg.resource_url)
          fontsDir dir "fonts" resources.fonts fs).fs dir e = true →
          dlOutcome net disk (taskUrl version (burlArg.getD cfg.resource_url) "images" e)
            (taskPath dir e) = .success ∧
          sha256hex (servedBody net
            (taskUrl version (burlArg.getD cfg.resource_url) "images" e)) = e.hash := by
        intro hst
        apply hok
        rw [← stale_congr _ _ _ _ huntouched]
        exact hst
      exact download_resources_entry_hash net disk version (burlArg.getD cfg.resource_url)
        fontsDir dir "images" dir resources.images _ (Or.inr ⟨rfl, rfl⟩)
        hn.2.1 e he hok'
    · simp only [if_neg hdf]
      rw [if_neg hdf] at hn
      rw [List.nil_append] at hn
      exact download_resources_entry_hash net disk version (burlArg.getD cfg.resource_url)
        fontsDir dir "images" dir resources.images fs (Or.inr ⟨rfl, rfl⟩)
        hn e he hok

/-- Witness for C1 amended at a concrete input: the server serves exactly the
promised byte, and after the sync the file's digest matches. -/
theorem c1_entry_hash_witness :
    ∃ c, (check_resources c1parse c1netGood noDisk c2cfg "F" "I" "1" none emptyFS).fs
        (taskPath "I" ⟨"a.png", sha256hex [1]⟩) = .ok c ∧
      sha256hex c = (⟨"a.png", sha256hex [1]⟩ : FileWithHash).hash :=
  c1_entry_hash c1parse c1netGood noDisk c2cfg "F" "I" "1" none emptyFS
    ⟨[], [⟨"a.png", sha256hex [1]⟩]⟩ (by decide) (by decide) "images" "I"
    ⟨"a.png", sha256hex [1]⟩ (Or.inr ⟨rfl, rfl, List.mem_singleton.mpr rfl⟩)
    (fun _ => ⟨by decide, by decide⟩)

/-- Parser of the C3 counterexample: byte `[7]` is a manifest with one font
and one image entry. -/
def c3parse : List Nat → Option Resources := fun b =>
  if b = [7] then some ⟨[⟨"f.ttf", "hf"⟩], [⟨"a.png", "ha"⟩]⟩ else none

/-- Network of the C3 counterexample: only the manifest URL answers. -/
def c3net : Net := fun u =>
  if u = "b/v1/resources/resources.json" then .resp 200 [[7]] true else .sendErr

/-- C3 counterexample: `Semaphore::new(32)` is executed inside each
`download_resources` call, so a sync whose two categories both have a stale
entry creates two separate 32-permit pools — not the single pool shared
across both categories that the claim states. -/
theorem c3_counterexample :
    (check_resources c3parse c3net noDisk c2cfg "F" "I" "1" none emptyFS).events.countP
      isSemCreate = 2 := by
  decide

/-- C3 amended: each category pass creates its own fresh 32-permit semaphore
(every pool-creation event of a pass carries capacity 32), and — because the
fonts pass runs to completion before the images pass begins — at no instant
during a sync do more than 32 download tasks hold a permit: every state
reachable from a sync's initial state has at most 32 tasks in flight. -/
theorem c3_concurrency_bound :
    (∀ nF nI : Nat, ∀ wf : Bool, ∀ s : SyncState,
      SyncReach (syncInit nF nI wf) s → activeDownloads s ≤ 32) ∧
    (∀ net disk version base_url fontsDir imagesDir t dir entries fs,
      ((t = "fonts" ∧ dir = fontsDir) ∨ (t = "images" ∧ dir = imagesDir)) →
      ∀ ev ∈ (download_resources net disk version base_url fontsDir imagesDir
        t entries fs).events, isSemCreate ev = true → ev = Event.semCreate t 32) := by
  constructor
  · intro nF nI wf s h
    exact syncInv_active_le (syncReach_inv h (syncInit_inv nF nI wf))
  · intro net disk version base_url fontsDir imagesDir t dir entries fs ht ev hev hsem
    rw [download_resources_unfold _ _ _ _ _ _ _ _ _ _ ht] at hev
    revert hev
    split
    · intro hev
      rcases checkEvents_mem _ _ _ _ ev hev with ⟨e, _, h | h⟩ <;>
        (rw [h] at hsem; cases hsem)
    · intro hev
      simp only [List.mem_append, List.mem_cons] at hev
      rcases hev with hce | rfl | rfl | hrt
      · rcases checkEvents_mem _ _ _ _ ev hce with ⟨e, _, h | h⟩ <;>
          (rw [h] at hsem; cases hsem)
      · rfl
      · cases hsem
      · rcases runTasks_events_mem _ _ _ _ _ _ _ _ ev hrt with ⟨e, _, h | h | h | h⟩ <;>
          (rw [h] at hsem; cases hsem)

/-- Witness for C3 amended: a concrete reachable state — one task of one has
acquired a permit — respects the bound. -/
theorem c3_concurrency_bound_witness :
    activeDownloads (SyncState.fontsActive ⟨[TStatus.inflight], 31⟩ 1) ≤ 32 :=
  c3_concurrency_bound.1 1 1 true _
    (Relation.ReflTransGen.single
      (SyncStep.fontsTask (PhaseStep.acquire 0 (initPhase 1) (by decide) (by decide))))

/-- C7: a failure in one download task terminates only that task.
In the scheduler model: (1) a step by task `i` leaves every other task's
status — including a recorded outcome — unchanged; (2) a terminal task takes
no further step (no retry, no outcome change); (3) a task holding a permit
can always finish, with either outcome, releasing its permit (a failing task
blocks no sibling); (4, 5) a category pass hands control on only when every
one of its tasks is terminal, so the sync waits for every dispatched task;
(6) a task's `download_file` outcome and resulting file state depend only on
the network at its own URL and the disk at its own path, so no sibling's
failure can alter them. -/
theorem c7_failure_isolation :
    (∀ (i j : Nat) (ps ps' : PhaseState), PhaseStep i ps ps' → i ≠ j →
      ps'.status.get? j = ps.status.get? j) ∧
    (∀ (i : Nat) (ps ps' : PhaseState) (b : Bool), PhaseStep i ps ps' →
      ps.status.get? i ≠ some (TStatus.done b)) ∧
    (∀ (i : Nat) (ps : PhaseState) (ok : Bool),
      ps.status.get? i = some TStatus.inflight →
      PhaseStep i ps ⟨ps.status.set i (TStatus.done ok), ps.permits + 1⟩) ∧
    (∀ (ps ps' : PhaseState) (n : Nat),
      SyncStep (SyncState.fontsActive ps n) (SyncState.imagesActive ps') → allDone ps) ∧
    (∀ ps : PhaseState, SyncStep (SyncState.imagesActive ps) SyncState.finished →
      allDone ps) ∧
    (∀ (net₁ net₂ : Net) (disk₁ disk₂ : DiskMap) (fs₁ fs₂ : FS) (cat₁ cat₂ url p : String),
      net₁ url = net₂ url → disk₁ p = disk₂ p →
      dlOutcome net₁ disk₁ url p = dlOutcome net₂ disk₂ url p ∧
      (fs₁ p = fs₂ p →
        (download_file net₁ disk₁ fs₁ cat₁ url p).fs p =
          (download_file net₂ disk₂ fs₂ cat₂ url p).fs p)) := by
  refine ⟨?_, ?_, ?_, ?_, ?_, ?_⟩
  · intro i j ps ps' hstep hij
    cases hstep with
    | acquire hstat hperm => exact List.get?_set_ne _ _ hij
    | finish ok hstat => exact List.get?_set_ne _ _ hij
  · intro i ps ps' b hstep
    cases hstep with
    | acquire hstat hperm =>
      intro hc
      have := hstat.symm.trans hc
      simp at this
    | finish ok hstat =>
      intro hc
      have := hstat.symm.trans hc
      simp at this
  · intro i ps ok h
    exact PhaseStep.finish i ps ok h
  · intro ps ps' n h
    cases h with
    | fontsFinish hd => exact hd
  · intro ps h
    cases h with
    | imagesFinish hd => exact hd
  · intro net₁ net₂ disk₁ disk₂ fs₁ fs₂ cat₁ cat₂ url p hnet hdisk
    constructor
    · unfold dlOutcome
      rw [hnet, hdisk]
    · intro hfs
      unfold download_file
      rw [hnet, hdisk]
      by_cases h1 : (disk₂ p).mkdirOk = false
      · simp [h1, hfs]
      · simp only [h1, if_false]
        cases net₂ url with
        | sendErr => simp [hfs]
        | resp st ch so =>
          by_cases h2 : isSuccessStatus st = false
          · simp [h1, h2, hfs]
          · by_cases h3 : (disk₂ p).createOk = false
            · simp [h1, h2, h3, hfs]
            · simp [h1, h2, h3]

/-- Witness for C7 at a concrete input: task 0's acquisition leaves task 1's
status unchanged. -/
theorem c7_failure_isolation_witness :
    (⟨[TStatus.pending, TStatus.pending].set 0 TStatus.inflight, 31⟩ :
      PhaseState).status.get? 1 =
    (⟨[TStatus.pending, TStatus.pending], 32⟩ : PhaseState).status.get? 1 :=
  c7_failure_isolation.1 0 1 ⟨[TStatus.pending, TStatus.pending], 32⟩ _
    (PhaseStep.acquire 0 ⟨[TStatus.pending, TStatus.pending], 32⟩ (by decide) (by decide))
    (by decide)

end MemeResources
